import Mathlib

/-!
Shallow embedding of the in-memory CRUD service in `src/main.go`
(col1985/ocp-pipelines-pac-demo).

The Go store is `map[int]Item` together with a `nextID` counter; the mutex
only serializes the operations, so each store operation is embedded as a
pure function on an explicit store value.  The Go map is represented as an
association list with unique keys (every map obtained from the operations
below has `Nodup` keys, proved later); `map` lookup / assignment / delete
become `mapLookup` / `mapInsert` / `mapErase`.  Go `int` ids and values are
modelled as unbounded `Int`: ids start at 1 and grow by one per stored
item, so 64-bit overflow is unreachable in any executable history.
-/

/-- The `Item` record of `main.go` (`ID`, `Name`, `Value`). -/
structure Item where
  id : Int
  name : String
  value : Int
deriving DecidableEq

/-- A Go-map assignment `m[k] = v`: replaces the binding of `k` if present,
otherwise adds a new binding. -/
def mapInsert (m : List (Int × Item)) (k : Int) (v : Item) : List (Int × Item) :=
  match m with
  | [] => [(k, v)]
  | (k', v') :: rest => if k' = k then (k, v) :: rest else (k', v') :: mapInsert rest k v

/-- A Go-map lookup `m[k]`: `some v` together with `ok = true`, or `none`. -/
def mapLookup (m : List (Int × Item)) (k : Int) : Option Item :=
  match m with
  | [] => none
  | (k', v) :: rest => if k' = k then some v else mapLookup rest k

/-- A Go-map `delete(m, k)`: removes every binding of `k` (a Go map holds at
most one). -/
def mapErase (m : List (Int × Item)) (k : Int) : List (Int × Item) :=
  match m with
  | [] => []
  | (k', v) :: rest => if k' = k then mapErase rest k else (k', v) :: mapErase rest k

/-- The single error the store produces: `fmt.Errorf("item with id %d not
found", id)`. -/
inductive StoreError where
  | notFound (id : Int)
deriving DecidableEq

/-- The message carried by the store's not-found error. -/
def notFoundMsg (id : Int) : String :=
  "item with id " ++ toString id ++ " not found"

/-- The `MemoryStore` struct: the item map and the `nextID` counter (the
mutex is operational only and has no counterpart in the pure embedding). -/
structure MemoryStore where
  items : List (Int × Item)
  nextID : Int
deriving DecidableEq

/-- `NewMemoryStore`: empty map, counter starting at 1. -/
def NewMemoryStore : MemoryStore :=
  { items := [], nextID := 1 }

/-- `GetItem`: lookup by id, not-found error if absent. -/
def GetItem (s : MemoryStore) (id : Int) : Except StoreError Item :=
  match mapLookup s.items id with
  | none => .error (.notFound id)
  | some item => .ok item

/-- `AddItem`: builds a fresh item from the candidate's name and value with
`ID := nextID` (the candidate's own id is ignored), stores it, increments
the counter and returns the new id. -/
def AddItem (s : MemoryStore) (item : Item) : Int × MemoryStore :=
  let newItem : Item := { id := s.nextID, name := item.name, value := item.value }
  (newItem.id, { items := mapInsert s.items s.nextID newItem, nextID := s.nextID + 1 })

/-- `UpdateItem`: not-found error if `id` is absent; otherwise stores the
replacement with its `ID` field overwritten by `id`. -/
def UpdateItem (s : MemoryStore) (id : Int) (item : Item) : Except StoreError MemoryStore :=
  match mapLookup s.items id with
  | none => .error (.notFound id)
  | some _ =>
      .ok { items := mapInsert s.items id { id := id, name := item.name, value := item.value },
            nextID := s.nextID }

/-- `DeleteItem`: not-found error if `id` is absent; otherwise removes the
binding. -/
def DeleteItem (s : MemoryStore) (id : Int) : Except StoreError MemoryStore :=
  match mapLookup s.items id with
  | none => .error (.notFound id)
  | some _ => .ok { items := mapErase s.items id, nextID := s.nextID }

/-- `GetItems`: the values of the map (the Go version never returns an
error; iteration order of a Go map is unspecified, the insertion order used
here is one admissible order). -/
def GetItems (s : MemoryStore) : List Item :=
  s.items.map Prod.snd

example : AddItem NewMemoryStore { id := 99, name := "a", value := 2 } =
    (1, { items := [(1, { id := 1, name := "a", value := 2 })], nextID := 2 }) := by decide

example : GetItem NewMemoryStore 1 = .error (.notFound 1) := rfl

/-!
HTTP layer.  A request is embedded as its method string, its URL path and
the result of decoding its body as item JSON (`none` when decoding fails,
matching the `json.NewDecoder(...).Decode(&item)` error branch).  A response
is its status code and body.  `strconv.Atoi` is embedded over the path
characters: optional sign followed by at least one decimal digit, with the
`int64` range check of `ParseInt` (values outside `[-2^63, 2^63 - 1]` fail
with `ErrRange`, which the handlers treat like any other `Atoi` error).
-/

/-- Digit loop of `strconv.Atoi`: `n = n*10 + (c - '0')`, error on any
non-digit. -/
def atoiDigits (n : Int) (cs : List Char) : Except Unit Int :=
  match cs with
  | [] => .ok n
  | c :: rest =>
      if c.isDigit then atoiDigits (n * 10 + (c.toNat - '0'.toNat : Nat)) rest
      else .error ()

/-- The `int64` range check of `strconv.ParseInt`: a syntactically valid
number outside `[-2^63, 2^63 - 1]` fails with `ErrRange`.  Go performs the
check against a cutoff inside the digit loop, but the observable result is
the same as checking the exact value; `Atoi`'s fast path (inputs shorter
than 19 bytes) never exceeds the range, so one check models both paths. -/
def atoiRange (r : Except Unit Int) : Except Unit Int :=
  match r with
  | .error e => .error e
  | .ok n => if n < -(2 ^ 63) ∨ 2 ^ 63 - 1 < n then .error () else .ok n

/-- `strconv.Atoi`: empty string is an error; an optional leading `+`/`-`
must be followed by at least one digit; the digits give the magnitude; the
value must fit in `int64`. -/
def Atoi (str : String) : Except Unit Int :=
  atoiRange
    (match str.data with
    | [] => .error ()
    | c :: cs =>
        if c = '+' ∨ c = '-' then
          match cs with
          | [] => .error ()
          | _ :: _ => (atoiDigits 0 cs).map (fun n => if c = '-' then -n else n)
        else atoiDigits 0 (c :: cs))

example : Atoi "-1" = .ok (-1) := rfl
example : Atoi "9223372036854775807" = .ok (2 ^ 63 - 1) := rfl
example : Atoi "9223372036854775808" = .error () := rfl
example : Atoi "-9223372036854775808" = .ok (-(2 ^ 63)) := rfl
example : Atoi "-9223372036854775809" = .error () := rfl
example : Atoi "42" = .ok 42 := rfl
example : Atoi "" = .error () := rfl
example : Atoi "1x" = .error () := rfl
example : Atoi "+7" = .ok 7 := rfl

/-- An HTTP request as the handlers consume it: method, URL path, and the
result of JSON-decoding the body into an `Item` (Go's decoder leaves absent
fields at their zero values, so every decodable body is some `Item`). -/
structure Request where
  method : String
  path : String
  body : Option Item
deriving DecidableEq

/-- Response bodies the handlers produce: plain-text `http.Error` messages,
a JSON item, a JSON item array, the JSON `{"id": n}` object of create, or
the empty body of 204 responses. -/
inductive ResponseBody where
  | empty
  | text (msg : String)
  | jsonItem (it : Item)
  | jsonItems (its : List Item)
  | jsonId (id : Int)
deriving DecidableEq

/-- An HTTP response: status code and body. -/
structure Response where
  status : Nat
  body : ResponseBody
deriving DecidableEq

/-- `r.URL.Path[len("/items/"):]`: Go slices the path's bytes past the
7-byte prefix; the prefix is ASCII, so this is dropping 7 characters. -/
def pathIdStr (path : String) : String :=
  String.mk (path.data.drop 7)

/-- `getItemHandler`: parse the id (400 on failure), look it up (404 on
not-found), else 200 with the item. -/
def getItemHandler (s : MemoryStore) (path : String) : Response × MemoryStore :=
  match Atoi (pathIdStr path) with
  | .error _ => ({ status := 400, body := .text "Invalid item ID" }, s)
  | .ok id =>
      match GetItem s id with
      | .error (.notFound i) => ({ status := 404, body := .text (notFoundMsg i) }, s)
      | .ok item => ({ status := 200, body := .jsonItem item }, s)

/-- `addItemHandler`: 400 on an undecodable body, 400 on empty name, 400 on
negative value, else `AddItem` and 201 with `{"id": newId}`. -/
def addItemHandler (s : MemoryStore) (body : Option Item) : Response × MemoryStore :=
  match body with
  | none => ({ status := 400, body := .text "Invalid request body" }, s)
  | some item =>
      if item.name = "" then ({ status := 400, body := .text "Item name cannot be empty" }, s)
      else if item.value < 0 then
        ({ status := 400, body := .text "Item value cannot be negative" }, s)
      else
        let (id, s') := AddItem s item
        ({ status := 201, body := .jsonId id }, s')

/-- `updateItemHandler`: 400 on a bad id or undecodable body, 404 when the
id is absent, else 204 (no name/value validation is performed). -/
def updateItemHandler (s : MemoryStore) (path : String) (body : Option Item) :
    Response × MemoryStore :=
  match Atoi (pathIdStr path) with
  | .error _ => ({ status := 400, body := .text "Invalid item ID" }, s)
  | .ok id =>
      match body with
      | none => ({ status := 400, body := .text "Invalid request body" }, s)
      | some item =>
          match UpdateItem s id item with
          | .error (.notFound i) => ({ status := 404, body := .text (notFoundMsg i) }, s)
          | .ok s' => ({ status := 204, body := .empty }, s')

/-- `deleteItemHandler`: 400 on a bad id, 404 when absent, else 204. -/
def deleteItemHandler (s : MemoryStore) (path : String) : Response × MemoryStore :=
  match Atoi (pathIdStr path) with
  | .error _ => ({ status := 400, body := .text "Invalid item ID" }, s)
  | .ok id =>
      match DeleteItem s id with
      | .error (.notFound i) => ({ status := 404, body := .text (notFoundMsg i) }, s)
      | .ok s' => ({ status := 204, body := .empty }, s')

/-- `getItemsHandler`: always 200 with the item list (the Go handler checks
neither method nor body, and `GetItems` never errors). -/
def getItemsHandler (s : MemoryStore) : Response × MemoryStore :=
  ({ status := 200, body := .jsonItems (GetItems s) }, s)

/-- The `ServeMux` of `main`, restricted to its two registered patterns:
the exact pattern `/items` dispatches every method to `getItemsHandler`;
the subtree pattern `/items/` (any path with that prefix) dispatches on the
method, with 405 for methods other than GET/POST/PUT/DELETE. -/
def routeItems (s : MemoryStore) (req : Request) : Response × MemoryStore :=
  if req.path = "/items" then getItemsHandler s
  else
    match req.method with
    | "GET" =>
        if req.path = "/items/" then getItemsHandler s
        else getItemHandler s req.path
    | "POST" => addItemHandler s req.body
    | "PUT" => updateItemHandler s req.path req.body
    | "DELETE" => deleteItemHandler s req.path
    | _ => ({ status := 405, body := .text "Method not allowed" }, s)

example :
    routeItems NewMemoryStore ⟨"POST", "/items/", some ⟨0, "Test Item", 111⟩⟩ =
    ({ status := 201, body := .jsonId 1 },
     { items := [(1, { id := 1, name := "Test Item", value := 111 })], nextID := 2 }) := rfl

example :
    routeItems NewMemoryStore { method := "GET", path := "/items/-1", body := none } =
    ({ status := 404, body := .text "item with id -1 not found" }, NewMemoryStore) := rfl

example :
    routeItems NewMemoryStore ⟨"POST", "/items", some ⟨0, "x", 1⟩⟩ =
    ({ status := 200, body := .jsonItems [] }, NewMemoryStore) := rfl

example :
    routeItems NewMemoryStore { method := "PATCH", path := "/items/1", body := none } =
    ({ status := 405, body := .text "Method not allowed" }, NewMemoryStore) := rfl

/-!
Histories.  `Op` is one store operation; `runOps` runs a whole history from
a given store, collecting the ids returned by the successful `AddItem`
calls (`AddItem` never fails; failing `UpdateItem`/`DeleteItem` calls leave
the store unchanged, as their Go versions return before mutating).  The
states reachable this way are exactly the inductive `Reachable` states.
-/

/-- One store operation of a history. -/
inductive Op where
  | add (it : Item)
  | update (id : Int) (it : Item)
  | delete (id : Int)

/-- Run a history of store operations, collecting the ids returned by
`AddItem`. -/
def runOps (s : MemoryStore) : List Op → List Int × MemoryStore
  | [] => ([], s)
  | .add it :: ops =>
      let (i, s') := AddItem s it
      let (ids, sf) := runOps s' ops
      (i :: ids, sf)
  | .update id it :: ops =>
      match UpdateItem s id it with
      | .ok s' => runOps s' ops
      | .error _ => runOps s ops
  | .delete id :: ops =>
      match DeleteItem s id with
      | .ok s' => runOps s' ops
      | .error _ => runOps s ops

/-- The store states reachable from `NewMemoryStore` by store operations. -/
inductive Reachable : MemoryStore → Prop where
  | new : Reachable NewMemoryStore
  | add (s : MemoryStore) (it : Item) : Reachable s → Reachable (AddItem s it).2
  | update (s s' : MemoryStore) (id : Int) (it : Item) :
      Reachable s → UpdateItem s id it = .ok s' → Reachable s'
  | delete (s s' : MemoryStore) (id : Int) :
      Reachable s → DeleteItem s id = .ok s' → Reachable s'

/-!  Lemmas about the association-list map operations.  -/

theorem mapLookup_mapInsert_self (m : List (Int × Item)) (k : Int) (v : Item) :
    mapLookup (mapInsert m k v) k = some v := by
  induction m with
  | nil => simp [mapInsert, mapLookup]
  | cons p rest ih =>
      obtain ⟨k', v'⟩ := p
      by_cases h : k' = k
      · simp [mapInsert, mapLookup, h]
      · simp [mapInsert, mapLookup, h, ih]

theorem mapLookup_mapInsert_ne (m : List (Int × Item)) (k j : Int) (v : Item)
    (h : j ≠ k) : mapLookup (mapInsert m k v) j = mapLookup m j := by
  induction m with
  | nil => simp [mapInsert, mapLookup, Ne.symm h]
  | cons p rest ih =>
      obtain ⟨k', v'⟩ := p
      by_cases hk : k' = k
      · subst hk
        simp [mapInsert, mapLookup, Ne.symm h]
      · by_cases hj : k' = j
        · simp [mapInsert, mapLookup, hk, hj, h]
        · simp [mapInsert, mapLookup, hk, hj, ih]

theorem mapLookup_mapErase_self (m : List (Int × Item)) (k : Int) :
    mapLookup (mapErase m k) k = none := by
  induction m with
  | nil => simp [mapErase, mapLookup]
  | cons p rest ih =>
      obtain ⟨k', v'⟩ := p
      by_cases h : k' = k
      · simp [mapErase, h, ih]
      · simp [mapErase, mapLookup, h, ih]

theorem mem_mapInsert (m : List (Int × Item)) (k : Int) (v : Item)
    (p : Int × Item) (hp : p ∈ mapInsert m k v) : p ∈ m ∨ p = (k, v) := by
  induction m with
  | nil => exact Or.inr (by simpa [mapInsert] using hp)
  | cons q rest ih =>
      obtain ⟨k', v'⟩ := q
      by_cases h : k' = k
      · simp only [mapInsert, h, if_pos rfl] at hp
        rcases List.mem_cons.mp hp with h1 | h1
        · exact Or.inr h1
        · exact Or.inl (List.mem_cons_of_mem _ h1)
      · simp only [mapInsert, if_neg h] at hp
        rcases List.mem_cons.mp hp with h1 | h1
        · exact Or.inl (h1 ▸ List.mem_cons_self _ _)
        · rcases ih h1 with h2 | h2
          · exact Or.inl (List.mem_cons_of_mem _ h2)
          · exact Or.inr h2

theorem mem_of_mem_mapErase (m : List (Int × Item)) (k : Int)
    (p : Int × Item) (hp : p ∈ mapErase m k) : p ∈ m := by
  induction m with
  | nil => simp [mapErase] at hp
  | cons q rest ih =>
      obtain ⟨k', v'⟩ := q
      by_cases h : k' = k
      · simp only [mapErase, h, if_pos rfl] at hp
        exact List.mem_cons_of_mem _ (ih hp)
      · simp only [mapErase, if_neg h] at hp
        rcases List.mem_cons.mp hp with h1 | h1
        · exact h1 ▸ List.mem_cons_self _ _
        · exact List.mem_cons_of_mem _ (ih h1)

theorem mem_of_mapLookup_eq_some (m : List (Int × Item)) (k : Int) (v : Item)
    (h : mapLookup m k = some v) : (k, v) ∈ m := by
  induction m with
  | nil => simp [mapLookup] at h
  | cons q rest ih =>
      obtain ⟨k', v'⟩ := q
      by_cases hk : k' = k
      · subst hk
        simp only [mapLookup, if_pos, Option.some.injEq] at h
        subst h
        exact List.mem_cons_self _ _
      · simp only [mapLookup, if_neg hk] at h
        exact List.mem_cons_of_mem _ (ih h)

theorem mapLookup_eq_none_of_keys (m : List (Int × Item)) (k : Int)
    (h : ∀ p ∈ m, p.1 ≠ k) : mapLookup m k = none := by
  induction m with
  | nil => rfl
  | cons q rest ih =>
      obtain ⟨k', v'⟩ := q
      have hk : k' ≠ k := h (k', v') (List.mem_cons_self _ _)
      simp only [mapLookup, if_neg hk]
      exact ih fun p hp => h p (List.mem_cons_of_mem _ hp)

theorem keys_nodup_mapInsert (m : List (Int × Item)) (k : Int) (v : Item)
    (h : (m.map Prod.fst).Nodup) : ((mapInsert m k v).map Prod.fst).Nodup := by
  induction m with
  | nil => simp [mapInsert]
  | cons q rest ih =>
      obtain ⟨k', v'⟩ := q
      simp only [List.map_cons, List.nodup_cons] at h
      by_cases hk : k' = k
      · subst hk
        simpa [mapInsert, List.nodup_cons] using h
      · have hrest := ih h.2
        simp only [mapInsert, if_neg hk, List.map_cons, List.nodup_cons]
        refine ⟨fun hmem => ?_, hrest⟩
        have : ∃ p ∈ mapInsert rest k v, p.1 = k' := by
          simpa [List.mem_map] using hmem
        obtain ⟨p, hp, hpk⟩ := this
        rcases mem_mapInsert rest k v p hp with h1 | h1
        · exact h.1 (hpk ▸ List.mem_map_of_mem Prod.fst h1)
        · exact hk (by rw [h1] at hpk; exact hpk.symm)

theorem UpdateItem_ok_iff (s s' : MemoryStore) (id : Int) (it : Item)
    (h : UpdateItem s id it = .ok s') :
    (∃ orig, mapLookup s.items id = some orig) ∧
    s' = { items := mapInsert s.items id { id := id, name := it.name, value := it.value },
            nextID := s.nextID } := by
  unfold UpdateItem at h
  cases hlk : mapLookup s.items id with
  | none => rw [hlk] at h; exact absurd h (by simp)
  | some orig =>
      rw [hlk] at h
      simp only [Except.ok.injEq] at h
      exact ⟨⟨orig, rfl⟩, h.symm⟩

theorem DeleteItem_ok_iff (s s' : MemoryStore) (id : Int)
    (h : DeleteItem s id = .ok s') :
    (∃ orig, mapLookup s.items id = some orig) ∧
    s' = { items := mapErase s.items id, nextID := s.nextID } := by
  unfold DeleteItem at h
  cases hlk : mapLookup s.items id with
  | none => rw [hlk] at h; exact absurd h (by simp)
  | some orig =>
      rw [hlk] at h
      simp only [Except.ok.injEq] at h
      exact ⟨⟨orig, rfl⟩, h.symm⟩

theorem keys_nodup_mapErase (m : List (Int × Item)) (k : Int)
    (h : (m.map Prod.fst).Nodup) : ((mapErase m k).map Prod.fst).Nodup := by
  induction m with
  | nil => simp [mapErase]
  | cons q rest ih =>
      obtain ⟨k', v'⟩ := q
      simp only [List.map_cons, List.nodup_cons] at h
      by_cases hk : k' = k
      · simp only [mapErase, if_pos hk]
        exact ih h.2
      · simp only [mapErase, if_neg hk, List.map_cons, List.nodup_cons]
        refine ⟨fun hmem => ?_, ih h.2⟩
        have : ∃ p ∈ mapErase rest k, p.1 = k' := by
          simpa [List.mem_map] using hmem
        obtain ⟨p, hp, hpk⟩ := this
        exact h.1 (hpk ▸ List.mem_map_of_mem Prod.fst (mem_of_mem_mapErase rest k p hp))

/-- The store invariant: the counter is at least 1, the map keys are
pairwise distinct, and every stored entry has its `id` field equal to its
key, the key at least 1 and strictly below the counter. -/
def StoreInv (s : MemoryStore) : Prop :=
  1 ≤ s.nextID ∧ (s.items.map Prod.fst).Nodup ∧
    ∀ p ∈ s.items, p.2.id = p.1 ∧ 1 ≤ p.1 ∧ p.1 < s.nextID

theorem reachable_storeInv (s : MemoryStore) (h : Reachable s) : StoreInv s := by
  induction h with
  | new => exact ⟨le_refl 1, by simp [NewMemoryStore], by simp [NewMemoryStore]⟩
  | add s it _ ih =>
      obtain ⟨h1, h2, h3⟩ := ih
      refine ⟨?_, ?_, ?_⟩
      · simp only [AddItem]
        omega
      · exact keys_nodup_mapInsert _ _ _ h2
      · intro p hp
        simp only [AddItem] at hp ⊢
        rcases mem_mapInsert _ _ _ p hp with hm | hm
        · obtain ⟨e1, e2, e3⟩ := h3 p hm
          exact ⟨e1, e2, by omega⟩
        · subst hm
          exact ⟨rfl, h1, by omega⟩
  | update s s' id it _ hok ih =>
      obtain ⟨h1, h2, h3⟩ := ih
      obtain ⟨⟨orig, hlk⟩, rfl⟩ := UpdateItem_ok_iff s s' id it hok
      obtain ⟨_, hk1, hk2⟩ := h3 (id, orig) (mem_of_mapLookup_eq_some _ _ _ hlk)
      refine ⟨h1, keys_nodup_mapInsert _ _ _ h2, ?_⟩
      intro p hp
      rcases mem_mapInsert _ _ _ p hp with hm | hm
      · exact h3 p hm
      · subst hm
        exact ⟨rfl, hk1, hk2⟩
  | delete s s' id _ hok ih =>
      obtain ⟨h1, h2, h3⟩ := ih
      obtain ⟨⟨orig, hlk⟩, rfl⟩ := DeleteItem_ok_iff s s' id hok
      refine ⟨h1, keys_nodup_mapErase _ _ h2, ?_⟩
      intro p hp
      exact h3 p (mem_of_mem_mapErase _ _ _ hp)

/-- In a reachable store, no key is ≤ 0, so lookup of any id ≤ 0 fails. -/
theorem reachable_lookup_nonpos (s : MemoryStore) (h : Reachable s) (id : Int)
    (hid : id ≤ 0) : mapLookup s.items id = none := by
  obtain ⟨_, _, h3⟩ := reachable_storeInv s h
  refine mapLookup_eq_none_of_keys _ _ fun p hp => ?_
  obtain ⟨_, hk1, _⟩ := h3 p hp
  omega

theorem runOps_ids_facts (ops : List Op) : ∀ s : MemoryStore,
    List.Pairwise (· < ·) (runOps s ops).1 ∧
    (∀ i ∈ (runOps s ops).1, s.nextID ≤ i ∧ i < (runOps s ops).2.nextID) ∧
    s.nextID ≤ (runOps s ops).2.nextID := by
  induction ops with
  | nil => intro s; simp [runOps]
  | cons op rest ih =>
      intro s
      cases op with
      | add it =>
          have hr1 : (runOps s (.add it :: rest)).1 =
              s.nextID :: (runOps (AddItem s it).2 rest).1 := rfl
          have hr2 : (runOps s (.add it :: rest)).2 = (runOps (AddItem s it).2 rest).2 := rfl
          obtain ⟨p1, p2, p3⟩ := ih (AddItem s it).2
          have hnx : (AddItem s it).2.nextID = s.nextID + 1 := rfl
          rw [hr1, hr2]
          refine ⟨?_, ?_, ?_⟩
          · refine List.Pairwise.cons ?_ p1
            intro i hi
            have := (p2 i hi).1
            omega
          · intro i hi
            rcases List.mem_cons.mp hi with rfl | hi'
            · have := p3
              omega
            · obtain ⟨b1, b2⟩ := p2 i hi'
              exact ⟨by omega, b2⟩
          · have := p3
            omega
      | update id it =>
          cases hU : UpdateItem s id it with
          | ok s' =>
              have hnx : s'.nextID = s.nextID := by
                obtain ⟨_, rfl⟩ := UpdateItem_ok_iff s s' id it hU
                rfl
              have hrun : runOps s (.update id it :: rest) = runOps s' rest := by
                simp [runOps, hU]
              rw [hrun]
              obtain ⟨p1, p2, p3⟩ := ih s'
              exact ⟨p1, fun i hi => by have := p2 i hi; omega, by omega⟩
          | error e =>
              have hrun : runOps s (.update id it :: rest) = runOps s rest := by
                simp [runOps, hU]
              rw [hrun]
              exact ih s
      | delete id =>
          cases hD : DeleteItem s id with
          | ok s' =>
              have hnx : s'.nextID = s.nextID := by
                obtain ⟨_, rfl⟩ := DeleteItem_ok_iff s s' id hD
                rfl
              have hrun : runOps s (.delete id :: rest) = runOps s' rest := by
                simp [runOps, hD]
              rw [hrun]
              obtain ⟨p1, p2, p3⟩ := ih s'
              exact ⟨p1, fun i hi => by have := p2 i hi; omega, by omega⟩
          | error e =>
              have hrun : runOps s (.delete id :: rest) = runOps s rest := by
                simp [runOps, hD]
              rw [hrun]
              exact ih s

/-- The final state of any history is reachable. -/
theorem runOps_reachable (ops : List Op) : ∀ s : MemoryStore, Reachable s →
    Reachable (runOps s ops).2 := by
  induction ops with
  | nil => intro s hs; simpa [runOps] using hs
  | cons op rest ih =>
      intro s hs
      cases op with
      | add it =>
          have hrun : (runOps s (.add it :: rest)).2 = (runOps (AddItem s it).2 rest).2 := by
            simp [runOps]
          rw [hrun]
          exact ih _ (Reachable.add s it hs)
      | update id it =>
          cases hU : UpdateItem s id it with
          | ok s' =>
              have hrun : (runOps s (.update id it :: rest)).2 = (runOps s' rest).2 := by
                simp [runOps, hU]
              rw [hrun]
              exact ih _ (Reachable.update s s' id it hs hU)
          | error e =>
              have hrun : (runOps s (.update id it :: rest)).2 = (runOps s rest).2 := by
                simp [runOps, hU]
              rw [hrun]
              exact ih _ hs
      | delete id =>
          cases hD : DeleteItem s id with
          | ok s' =>
              have hrun : (runOps s (.delete id :: rest)).2 = (runOps s' rest).2 := by
                simp [runOps, hD]
              rw [hrun]
              exact ih _ (Reachable.delete s s' id hs hD)
          | error e =>
              have hrun : (runOps s (.delete id :: rest)).2 = (runOps s rest).2 := by
                simp [runOps, hD]
              rw [hrun]
              exact ih _ hs

/-- The digit loop succeeds on all-digit input; a nonnegative accumulator
yields a nonnegative result. -/
theorem atoiDigits_all_digits (cs : List Char) : ∀ n : Int, (∀ c ∈ cs, c.isDigit) →
    ∃ m : Int, atoiDigits n cs = .ok m ∧ (0 ≤ n → 0 ≤ m) := by
  induction cs with
  | nil => intro n _; exact ⟨n, rfl, fun h => h⟩
  | cons c rest ih =>
      intro n hd
      have hc : c.isDigit := hd c (List.mem_cons_self _ _)
      obtain ⟨m, hm, hmono⟩ :=
        ih (n * 10 + (c.toNat - '0'.toNat : Nat)) fun x hx => hd x (List.mem_cons_of_mem _ hx)
      refine ⟨m, ?_, fun hn => hmono (by omega)⟩
      simp only [atoiDigits, hc, if_pos]
      exact hm

/-- `Atoi` accepts a `-`-prefixed digit string whose magnitude is at most
`2^63` (the `int64` range for negatives) and yields the nonpositive value. -/
theorem Atoi_neg_literal (ds : List Char) (m : Int) (hne : ds ≠ [])
    (hd : ∀ c ∈ ds, c.isDigit) (hval : atoiDigits 0 ds = .ok m)
    (hrange : m ≤ 2 ^ 63) :
    Atoi (String.mk ('-' :: ds)) = .ok (-m) ∧ -m ≤ 0 := by
  have hnn : 0 ≤ m := by
    obtain ⟨m', hm', hpos⟩ := atoiDigits_all_digits ds 0 hd
    rw [hval] at hm'
    simp only [Except.ok.injEq] at hm'
    subst hm'
    exact hpos le_rfl
  have h63 : (2 : Int) ^ 63 = 9223372036854775808 := by norm_num
  refine ⟨?_, by omega⟩
  cases ds with
  | nil => exact absurd rfl hne
  | cons c rest =>
      have hr : m ≤ 9223372036854775808 := by rw [h63] at hrange; exact hrange
      simp [Atoi, atoiRange, hval, Except.map]
      omega

/-- Dropping the 7-character `/items/` prefix recovers the id segment. -/
theorem pathIdStr_append (rest : String) : pathIdStr ("/items/" ++ rest) = rest := by
  obtain ⟨l⟩ := rest
  simp only [pathIdStr, String.data_append]
  rfl

/-- A path extending `/items/` is never the exact path `/items`. -/
theorem items_slash_ne_items (rest : String) : "/items/" ++ rest ≠ "/items" := by
  intro h
  have hd : ("/items/" ++ rest).data = "/items".data := congrArg String.data h
  rw [String.data_append] at hd
  have hlen := congrArg List.length hd
  rw [List.length_append] at hlen
  have h1 : ("/items/".data).length = 7 := rfl
  have h2 : ("/items".data).length = 6 := rfl
  rw [h1, h2] at hlen
  omega

/-- A path extending `/items/` by a nonempty segment is never `/items/`. -/
theorem items_slash_ne_items_slash (rest : String) (h0 : rest.data ≠ []) :
    "/items/" ++ rest ≠ "/items/" := by
  intro h
  have hd : ("/items/" ++ rest).data = "/items/".data := congrArg String.data h
  rw [String.data_append] at hd
  have hlen := congrArg List.length hd
  rw [List.length_append] at hlen
  have h3 : rest.data.length ≠ 0 := fun hz => h0 (List.eq_nil_of_length_eq_zero hz)
  omega

theorem GetItem_absent (s : MemoryStore) (id : Int) (h : mapLookup s.items id = none) :
    GetItem s id = .error (.notFound id) := by
  unfold GetItem
  rw [h]

theorem UpdateItem_absent (s : MemoryStore) (id : Int) (it : Item)
    (h : mapLookup s.items id = none) : UpdateItem s id it = .error (.notFound id) := by
  unfold UpdateItem
  rw [h]

theorem DeleteItem_absent (s : MemoryStore) (id : Int) (h : mapLookup s.items id = none) :
    DeleteItem s id = .error (.notFound id) := by
  unfold DeleteItem
  rw [h]

theorem getItemHandler_absent (s : MemoryStore) (path : String) (id : Int)
    (hA : Atoi (pathIdStr path) = .ok id) (habs : mapLookup s.items id = none) :
    getItemHandler s path = ({ status := 404, body := .text (notFoundMsg id) }, s) := by
  simp [getItemHandler, hA, GetItem_absent s id habs]

theorem updateItemHandler_absent (s : MemoryStore) (path : String) (id : Int) (it : Item)
    (hA : Atoi (pathIdStr path) = .ok id) (habs : mapLookup s.items id = none) :
    updateItemHandler s path (some it) =
      ({ status := 404, body := .text (notFoundMsg id) }, s) := by
  simp [updateItemHandler, hA, UpdateItem_absent s id it habs]

theorem deleteItemHandler_absent (s : MemoryStore) (path : String) (id : Int)
    (hA : Atoi (pathIdStr path) = .ok id) (habs : mapLookup s.items id = none) :
    deleteItemHandler s path = ({ status := 404, body := .text (notFoundMsg id) }, s) := by
  simp [deleteItemHandler, hA, DeleteItem_absent s id habs]

theorem mapLookup_eq_of_mem_nodup (m : List (Int × Item)) (k : Int) (v : Item)
    (hmem : (k, v) ∈ m) (hnd : (m.map Prod.fst).Nodup) : mapLookup m k = some v := by
  induction m with
  | nil => simp at hmem
  | cons q rest ih =>
      obtain ⟨k', v'⟩ := q
      simp only [List.map_cons, List.nodup_cons] at hnd
      rcases List.mem_cons.mp hmem with heq | hmem'
      · cases heq
        simp [mapLookup]
      · by_cases hk : k' = k
        · subst hk
          exact absurd (List.mem_map_of_mem Prod.fst hmem') hnd.1
        · simp only [mapLookup, if_neg hk]
          exact ih hmem' hnd.2

theorem values_nodup (m : List (Int × Item)) (h2 : (m.map Prod.fst).Nodup)
    (h3 : ∀ p ∈ m, p.2.id = p.1) : (m.map Prod.snd).Nodup := by
  have hmap : m.map (fun p => p.2.id) = m.map Prod.fst :=
    List.map_congr_left fun p hp => h3 p hp
  have hnd : (m.map (fun p => p.2.id)).Nodup := hmap ▸ h2
  have hcomp : (m.map Prod.snd).map Item.id = m.map (fun p => p.2.id) := by
    simp [List.map_map]
  rw [← hcomp] at hnd
  exact hnd.of_map Item.id

/-- Claim C1: for every sequence of operations on a store created by
`NewMemoryStore`, the ids returned by the successful `AddItem` calls are
pairwise strictly increasing — each is unique and strictly greater than
every id returned by a previous `AddItem` call. -/
theorem spec_C1 (ops : List Op) :
    List.Pairwise (· < ·) (runOps NewMemoryStore ops).1 :=
  (runOps_ids_facts ops NewMemoryStore).1

/-- Claim C2: adding any candidate item and getting the returned id back
yields an item with the candidate's name and value and with id equal to the
returned id; the returned id is `s.nextID`, independent of the candidate's
own id field. -/
theorem spec_C2 (s : MemoryStore) (cand : Item) :
    (AddItem s cand).1 = s.nextID ∧
    (∀ x : Int, (AddItem s { cand with id := x }).1 = (AddItem s cand).1) ∧
    GetItem (AddItem s cand).2 (AddItem s cand).1 =
      .ok { id := (AddItem s cand).1, name := cand.name, value := cand.value } := by
  refine ⟨rfl, fun x => rfl, ?_⟩
  have h : (AddItem s cand).2.items =
      mapInsert s.items s.nextID { id := s.nextID, name := cand.name, value := cand.value } :=
    rfl
  unfold GetItem
  rw [show (AddItem s cand).1 = s.nextID from rfl, h, mapLookup_mapInsert_self]

/-- Claim C3: updating a present id with any replacement succeeds and the
stored entry keeps that id while taking the replacement's name and value. -/
theorem spec_C3 (s : MemoryStore) (id : Int) (orig repl : Item)
    (h : mapLookup s.items id = some orig) :
    ∃ s', UpdateItem s id repl = .ok s' ∧
      mapLookup s'.items id = some { id := id, name := repl.name, value := repl.value } ∧
      s'.nextID = s.nextID := by
  refine ⟨{ items := mapInsert s.items id { id := id, name := repl.name, value := repl.value },
             nextID := s.nextID }, ?_, ?_, rfl⟩
  · unfold UpdateItem
    rw [h]
  · exact mapLookup_mapInsert_self s.items id _

/-- Witness for C3: store `{1 ↦ (1, a, 2)}`, update id 1 with a replacement
carrying foreign id 9. -/
theorem spec_C3_witness :
    mapLookup (AddItem NewMemoryStore { id := 0, name := "a", value := 2 }).2.items 1 =
      some { id := 1, name := "a", value := 2 } ∧
    ∃ s', UpdateItem (AddItem NewMemoryStore { id := 0, name := "a", value := 2 }).2 1
        { id := 9, name := "X", value := 5 } = .ok s' ∧
      mapLookup s'.items 1 = some { id := 1, name := "X", value := 5 } ∧
      s'.nextID = (AddItem NewMemoryStore { id := 0, name := "a", value := 2 }).2.nextID :=
  ⟨rfl, spec_C3 (AddItem NewMemoryStore { id := 0, name := "a", value := 2 }).2 1
    { id := 1, name := "a", value := 2 } { id := 9, name := "X", value := 5 } rfl⟩

/-- Claim C5: a create request whose body decodes but has an empty name
(resp. a nonempty name and negative value) is answered 400 with the
corresponding message and the store — items and counter alike — is returned
unchanged, so no id is consumed. -/
theorem spec_C5 (s : MemoryStore) (it : Item) :
    (it.name = "" → addItemHandler s (some it) =
      ({ status := 400, body := .text "Item name cannot be empty" }, s)) ∧
    (it.name ≠ "" → it.value < 0 → addItemHandler s (some it) =
      ({ status := 400, body := .text "Item value cannot be negative" }, s)) := by
  constructor
  · intro h
    simp [addItemHandler, h]
  · intro h1 h2
    simp [addItemHandler, h1, h2]

/-- Witness for C5: empty-name and negative-value creates on the fresh
store are both rejected with the store unchanged. -/
theorem spec_C5_witness :
    addItemHandler NewMemoryStore (some { id := 0, name := "", value := 3 }) =
      ({ status := 400, body := .text "Item name cannot be empty" }, NewMemoryStore) ∧
    addItemHandler NewMemoryStore (some { id := 0, name := "a", value := -1 }) =
      ({ status := 400, body := .text "Item value cannot be negative" }, NewMemoryStore) :=
  ⟨(spec_C5 NewMemoryStore { id := 0, name := "", value := 3 }).1 rfl,
   (spec_C5 NewMemoryStore { id := 0, name := "a", value := -1 }).2 (by decide) (by decide)⟩

/-- Claim C7: in every state reachable by a history of store operations,
each stored entry's id field equals its key (so ids are unique, witnessed
by the keys being pairwise distinct), id 0 is never a key, and every id
returned by an `AddItem` of the history is strictly below the final
counter, so a deleted id is never handed out again. -/
theorem spec_C7 (ops : List Op) :
    (∀ p ∈ (runOps NewMemoryStore ops).2.items,
        p.2.id = p.1 ∧ 1 ≤ p.1 ∧ p.1 < (runOps NewMemoryStore ops).2.nextID) ∧
    ((runOps NewMemoryStore ops).2.items.map Prod.fst).Nodup ∧
    mapLookup (runOps NewMemoryStore ops).2.items 0 = none ∧
    (∀ i ∈ (runOps NewMemoryStore ops).1, i < (runOps NewMemoryStore ops).2.nextID) := by
  have hr := runOps_reachable ops NewMemoryStore Reachable.new
  obtain ⟨h1, h2, h3⟩ := reachable_storeInv _ hr
  refine ⟨h3, h2, reachable_lookup_nonpos _ hr 0 le_rfl, ?_⟩
  intro i hi
  exact ((runOps_ids_facts ops NewMemoryStore).2.1 i hi).2

/-- Claim C6: on an absent id, `GetItem`, `UpdateItem` and `DeleteItem` all
fail with the not-found error, and the three id handlers answer 404 with
that message without changing the store; moreover after a successful
`DeleteItem`, a second delete of the same id and every subsequent get fail
with not-found. -/
theorem spec_C6 (s sd sd' : MemoryStore) (id idd : Int) (it : Item) (path : String)
    (habs : mapLookup s.items id = none)
    (hA : Atoi (pathIdStr path) = .ok id)
    (hdel : DeleteItem sd idd = .ok sd') :
    GetItem s id = .error (.notFound id) ∧
    UpdateItem s id it = .error (.notFound id) ∧
    DeleteItem s id = .error (.notFound id) ∧
    getItemHandler s path = ({ status := 404, body := .text (notFoundMsg id) }, s) ∧
    updateItemHandler s path (some it) =
      ({ status := 404, body := .text (notFoundMsg id) }, s) ∧
    deleteItemHandler s path = ({ status := 404, body := .text (notFoundMsg id) }, s) ∧
    DeleteItem sd' idd = .error (.notFound idd) ∧
    GetItem sd' idd = .error (.notFound idd) := by
  obtain ⟨_, rfl⟩ := DeleteItem_ok_iff sd sd' idd hdel
  have herased : mapLookup (mapErase sd.items idd) idd = none :=
    mapLookup_mapErase_self sd.items idd
  exact ⟨GetItem_absent s id habs,
    UpdateItem_absent s id it habs,
    DeleteItem_absent s id habs,
    getItemHandler_absent s path id hA habs,
    updateItemHandler_absent s path id it hA habs,
    deleteItemHandler_absent s path id hA habs,
    DeleteItem_absent _ idd herased,
    GetItem_absent _ idd herased⟩

/-- Witness for C6: id 5 absent from the fresh store via path `/items/5`;
delete of id 1 from the one-item store `{1 ↦ (1, a, 1)}` succeeds, after
which delete and get of id 1 both fail. -/
theorem spec_C6_witness :
    GetItem NewMemoryStore 5 = .error (.notFound 5) ∧
    UpdateItem NewMemoryStore 5 { id := 0, name := "x", value := 1 } =
      .error (.notFound 5) ∧
    DeleteItem NewMemoryStore 5 = .error (.notFound 5) ∧
    getItemHandler NewMemoryStore "/items/5" =
      ({ status := 404, body := .text (notFoundMsg 5) }, NewMemoryStore) ∧
    updateItemHandler NewMemoryStore "/items/5" (some { id := 0, name := "x", value := 1 }) =
      ({ status := 404, body := .text (notFoundMsg 5) }, NewMemoryStore) ∧
    deleteItemHandler NewMemoryStore "/items/5" =
      ({ status := 404, body := .text (notFoundMsg 5) }, NewMemoryStore) ∧
    DeleteItem { items := [], nextID := 2 } 1 = .error (.notFound 1) ∧
    GetItem { items := [], nextID := 2 } 1 = .error (.notFound 1) :=
  spec_C6 NewMemoryStore (AddItem NewMemoryStore { id := 0, name := "a", value := 1 }).2
    { items := [], nextID := 2 } 5 1 { id := 0, name := "x", value := 1 } "/items/5"
    rfl rfl rfl

/-- Claim C8: the update handler performs no name/value validation: for a
present id and any decodable body — including an empty name and a negative
value — the response is 204 and the stored entry takes the body's name and
value (keeping the original id). -/
theorem spec_C8 (s : MemoryStore) (id : Int) (orig it : Item) (path : String)
    (hA : Atoi (pathIdStr path) = .ok id)
    (hpres : mapLookup s.items id = some orig) :
    ∃ s', updateItemHandler s path (some it) = ({ status := 204, body := .empty }, s') ∧
      mapLookup s'.items id = some { id := id, name := it.name, value := it.value } := by
  have hupd : UpdateItem s id it =
      .ok { items := mapInsert s.items id { id := id, name := it.name, value := it.value },
             nextID := s.nextID } := by
    unfold UpdateItem
    rw [hpres]
  refine ⟨{ items := mapInsert s.items id { id := id, name := it.name, value := it.value },
             nextID := s.nextID }, ?_, mapLookup_mapInsert_self s.items id _⟩
  simp [updateItemHandler, hA, hupd]

/-- Witness for C8: updating id 1 of `{1 ↦ (1, a, 1)}` with the
create-invalid body `(id 99, empty name, value -5)` is accepted with 204 and
stored as `(1, empty name, -5)`. -/
theorem spec_C8_witness :
    ∃ s', updateItemHandler (AddItem NewMemoryStore { id := 0, name := "a", value := 1 }).2
        "/items/1" (some { id := 99, name := "", value := -5 }) =
        ({ status := 204, body := .empty }, s') ∧
      mapLookup s'.items 1 = some { id := 1, name := "", value := -5 } :=
  spec_C8 (AddItem NewMemoryStore { id := 0, name := "a", value := 1 }).2 1
    { id := 1, name := "a", value := 1 } { id := 99, name := "", value := -5 }
    "/items/1" rfl rfl

/-- Claim C9: in every reachable store state the listing has no duplicates,
and an item occurs in it exactly when the store maps that item's id to it —
the listing is exactly the current items, each exactly once, with no order
guaranteed beyond that. -/
theorem spec_C9 (s : MemoryStore) (it : Item) (h : Reachable s) :
    (GetItems s).Nodup ∧
    (it ∈ GetItems s ↔ mapLookup s.items it.id = some it) := by
  obtain ⟨_, h2, h3⟩ := reachable_storeInv s h
  refine ⟨values_nodup s.items h2 (fun p hp => (h3 p hp).1), ?_, ?_⟩
  · intro hmem
    obtain ⟨p, hp, hpeq⟩ := List.mem_map.mp hmem
    have hid : p.2.id = p.1 := (h3 p hp).1
    have hmem2 : (it.id, it) ∈ s.items := by
      have : p = (it.id, it) := by
        obtain ⟨k, v⟩ := p
        simp only at hpeq
        subst hpeq
        simp only at hid
        rw [hid]
      exact this ▸ hp
    exact mapLookup_eq_of_mem_nodup s.items it.id it hmem2 h2
  · intro hlk
    exact List.mem_map.mpr ⟨(it.id, it), mem_of_mapLookup_eq_some _ _ _ hlk, rfl⟩

/-- Witness for C9: the state after creating items 1 and 2; the listing has
no duplicates and contains item 1 exactly as stored. -/
theorem spec_C9_witness :
    (GetItems (AddItem (AddItem NewMemoryStore { id := 0, name := "a", value := 1 }).2
        { id := 0, name := "b", value := 2 }).2).Nodup ∧
    ({ id := 1, name := "a", value := 1 : Item } ∈
        GetItems (AddItem (AddItem NewMemoryStore { id := 0, name := "a", value := 1 }).2
          { id := 0, name := "b", value := 2 }).2 ↔
      mapLookup (AddItem (AddItem NewMemoryStore { id := 0, name := "a", value := 1 }).2
          { id := 0, name := "b", value := 2 }).2.items 1 =
        some { id := 1, name := "a", value := 1 }) :=
  spec_C9 (AddItem (AddItem NewMemoryStore { id := 0, name := "a", value := 1 }).2
      { id := 0, name := "b", value := 2 }).2 { id := 1, name := "a", value := 1 }
    (Reachable.add _ _ (Reachable.add _ _ Reachable.new))

/-- Counterexample to claim C4 as stated: POST on the exact registered
route `/items` is a method the route does not support (only GET lists), yet
the mux dispatches every method on `/items` to the listing handler, so the
response is 200, not 405. -/
theorem spec_C4_counterexample :
    (routeItems NewMemoryStore ⟨"POST", "/items", some ⟨0, "x", 1⟩⟩).1.status = 200 ∧
    (routeItems NewMemoryStore ⟨"POST", "/items", some ⟨0, "x", 1⟩⟩).1.status ≠ 405 := by
  exact ⟨rfl, by decide⟩

/-- Claim C4 (amended): on the `/items/` subtree route, any method outside
GET/POST/PUT/DELETE is answered 405 Method Not Allowed with the store
untouched; the exact route `/items` instead dispatches every method to the
listing handler (also leaving the store untouched). -/
theorem spec_C4_amended (s : MemoryStore) (req : Request) (rest : String)
    (hpath : req.path = "/items/" ++ rest)
    (hm1 : req.method ≠ "GET") (hm2 : req.method ≠ "POST")
    (hm3 : req.method ≠ "PUT") (hm4 : req.method ≠ "DELETE") :
    routeItems s req = ({ status := 405, body := .text "Method not allowed" }, s) ∧
    ∀ req' : Request, req'.path = "/items" → routeItems s req' = getItemsHandler s := by
  constructor
  · obtain ⟨m, p, b⟩ := req
    simp only at hpath hm1 hm2 hm3 hm4
    subst hpath
    unfold routeItems
    rw [if_neg (items_slash_ne_items rest)]
    split <;> simp_all
  · intro req' hp
    unfold routeItems
    rw [if_pos hp]

/-- Witness for the amended C4: a PATCH on `/items/1` gets 405 from the
fresh store, and a POST request on exact `/items` goes to the listing
handler. -/
theorem spec_C4_amended_witness :
    routeItems NewMemoryStore ⟨"PATCH", "/items/1", none⟩ =
      ({ status := 405, body := .text "Method not allowed" }, NewMemoryStore) ∧
    routeItems NewMemoryStore ⟨"POST", "/items", some ⟨0, "x", 1⟩⟩ =
      getItemsHandler NewMemoryStore :=
  ⟨(spec_C4_amended NewMemoryStore ⟨"PATCH", "/items/1", none⟩ "1" rfl
      (by decide) (by decide) (by decide) (by decide)).1,
   (spec_C4_amended NewMemoryStore ⟨"PATCH", "/items/1", none⟩ "1" rfl
      (by decide) (by decide) (by decide) (by decide)).2
     ⟨"POST", "/items", some ⟨0, "x", 1⟩⟩ rfl⟩

/-- Counterexample to claim C10 as stated: the id segment
-9999999999999999999 is a negative integer literal, but its
magnitude exceeds the `int64` range, so `strconv.Atoi` fails with
`ErrRange` and the handler answers 400 Invalid item ID, not 404 from the
store lookup. -/
theorem spec_C10_counterexample :
    Atoi "-9999999999999999999" = .error () ∧
    routeItems NewMemoryStore ⟨"GET", "/items/-9999999999999999999", none⟩ =
      ({ status := 400, body := .text "Invalid item ID" }, NewMemoryStore) :=
  ⟨rfl, rfl⟩

/-- Claim C10 (amended): for any reachable store and any negative integer
literal id segment whose magnitude is at most `2^63` (so within the `int64`
range), `strconv.Atoi` accepts it, and GET/PUT/DELETE on a path with that
id segment all answer 404 from the store lookup (never 400), leaving the
store unchanged, because such an id is never a key; literals beyond the
`int64` range instead fail the id validation with 400. -/
theorem spec_C10_amended (s : MemoryStore) (body : Item) (ds : List Char) (m : Int)
    (h : Reachable s) (hne : ds ≠ []) (hdig : ∀ c ∈ ds, c.isDigit)
    (hval : atoiDigits 0 ds = .ok m) (hrange : m ≤ 2 ^ 63) :
    Atoi (pathIdStr ("/items/" ++ String.mk ('-' :: ds))) = .ok (-m) ∧ -m ≤ 0 ∧
      routeItems s ⟨"GET", "/items/" ++ String.mk ('-' :: ds), none⟩ =
        ({ status := 404, body := .text (notFoundMsg (-m)) }, s) ∧
      routeItems s ⟨"PUT", "/items/" ++ String.mk ('-' :: ds), some body⟩ =
        ({ status := 404, body := .text (notFoundMsg (-m)) }, s) ∧
      routeItems s ⟨"DELETE", "/items/" ++ String.mk ('-' :: ds), none⟩ =
        ({ status := 404, body := .text (notFoundMsg (-m)) }, s) := by
  obtain ⟨hA, hle⟩ := Atoi_neg_literal ds m hne hdig hval hrange
  have hA' : Atoi (pathIdStr ("/items/" ++ String.mk ('-' :: ds))) = .ok (-m) := by
    rw [pathIdStr_append]
    exact hA
  have habs : mapLookup s.items (-m) = none := reachable_lookup_nonpos s h (-m) hle
  have hne1 : "/items/" ++ String.mk ('-' :: ds) ≠ "/items" :=
    items_slash_ne_items (String.mk ('-' :: ds))
  have hne2 : "/items/" ++ String.mk ('-' :: ds) ≠ "/items/" :=
    items_slash_ne_items_slash (String.mk ('-' :: ds)) (by simp)
  refine ⟨hA', hle, ?_, ?_, ?_⟩
  · unfold routeItems
    simp only
    rw [if_neg hne1, if_neg hne2]
    exact getItemHandler_absent s _ (-m) hA' habs
  · unfold routeItems
    simp only
    rw [if_neg hne1]
    exact updateItemHandler_absent s _ (-m) body hA' habs
  · unfold routeItems
    simp only
    rw [if_neg hne1]
    exact deleteItemHandler_absent s _ (-m) hA' habs

/-- Witness for the amended C10: the literal `-1` (magnitude 1, within
range) on the fresh store. -/
theorem spec_C10_amended_witness :
    Atoi (pathIdStr ("/items/" ++ String.mk ('-' :: ['1']))) = .ok (-1) ∧ (-1 : Int) ≤ 0 ∧
      routeItems NewMemoryStore ⟨"GET", "/items/" ++ String.mk ('-' :: ['1']), none⟩ =
        ({ status := 404, body := .text (notFoundMsg (-1)) }, NewMemoryStore) ∧
      routeItems NewMemoryStore
          ⟨"PUT", "/items/" ++ String.mk ('-' :: ['1']), some ⟨0, "x", 1⟩⟩ =
        ({ status := 404, body := .text (notFoundMsg (-1)) }, NewMemoryStore) ∧
      routeItems NewMemoryStore ⟨"DELETE", "/items/" ++ String.mk ('-' :: ['1']), none⟩ =
        ({ status := 404, body := .text (notFoundMsg (-1)) }, NewMemoryStore) :=
  spec_C10_amended NewMemoryStore ⟨0, "x", 1⟩ ['1'] 1 Reachable.new (by decide) (by decide)
    rfl (by norm_num)
